import Mathlib

/-!
# Verification of the research-report catalogue build pipeline

Shallow embedding of the Python build pipeline:
* `build/generate-index.py` — organizer (by category, by date), featured
  selection, date label formatting;
* `build/validate-reports.py` — field validator and duplicate detection;
* `scripts/migrate.py` — filename-based category inference and the
  featured flagging/labeling step of `create_reports_json`.

JSON report records are embedded as a `Report` structure whose optional
fields are `Option String` (a missing key is `none`).  Python's stable
`list.sort`/`sorted` is modelled by an insertion sort with the appropriate
comparison (insertion sort is stable; any two stable sorts of the same
total preorder produce the same list, so this is extensionally the
behaviour of Python's stable sort, including `reverse=True`, which keeps
the original relative order of equal keys).  Python string comparison is
lexicographic on code points, modelled by `strLeL` on `String.data`.
-/

namespace Catalogue

/-- `mapWithIdx f n l` maps `f` over `l` with indices starting at `n`;
`mapWithIdx f 0` models Python's `enumerate` followed by a comprehension. -/
def mapWithIdx (f : Nat → α → β) : Nat → List α → List β
  | _, [] => []
  | n, a :: l => f n a :: mapWithIdx f (n + 1) l

/-- Python string comparison `s <= t` on code-point lists (lexicographic;
a proper prefix is smaller). -/
def strLeL : List Char → List Char → Bool
  | [], _ => true
  | _ :: _, [] => false
  | a :: as, b :: bs =>
    if a.toNat < b.toNat then true
    else if b.toNat < a.toNat then false
    else strLeL as bs

/-- Python string comparison `s <= t` (lexicographic by code points). -/
def pyStrLe (s t : String) : Bool :=
  strLeL s.data t.data

/-- Insert `a` into `l` in front of the first `b` with `leB a b`.  Building a
sort from this insertion (processing the input right to left) yields a stable
sort for the total preorder decided by `leB`. -/
def insertLe (leB : α → α → Bool) (a : α) : List α → List α
  | [] => [a]
  | b :: l => if leB a b then a :: b :: l else b :: insertLe leB a l

/-- Stable insertion sort by the Bool comparison `leB`; models Python's
stable `sorted`/`list.sort` for the ordering decided by `leB`. -/
def sortByLe (leB : α → α → Bool) : List α → List α
  | [] => []
  | a :: l => insertLe leB a (sortByLe leB l)

/-- Python `l.sort(key=key, reverse=True)` for string keys (stable,
descending: equal keys keep their original relative order).  `a` is inserted
before `b` exactly when `key b <= key a`, so among equal keys the
earlier-listed record stays first. -/
def sortDescByStr (key : α → String) (l : List α) : List α :=
  sortByLe (fun a b => pyStrLe (key b) (key a)) l

/-- Python `sorted(l, key=key)` for integer keys (stable, ascending). -/
def sortAscByInt (key : α → Int) (l : List α) : List α :=
  sortByLe (fun a b => decide (key a ≤ key b)) l

/-- A report record of `config/reports.json`.  Optional JSON keys are
`Option`-valued; the `featured` flag is the Python truthiness of the
`featured` key (missing key = `False`). -/
structure Report where
  id : Option String := none
  filename : Option String := none
  title : Option String := none
  description : Option String := none
  date : Option String := none
  category : Option String := none
  version : Option String := none
  badges : List String := []
  badge_colors : List String := []
  featured : Bool := false
  featured_label : Option String := none
deriving Repr, DecidableEq, Inhabited

/-- Python truthiness of an optional string value (`None` and `""` are falsy). -/
def truthyS : Option String → Bool
  | none => false
  | some s => !s.isEmpty

/-- A category definition of `config/reports.json` (`order` key optional,
read by the code as `cat_info.get("order", 99)`). -/
structure CategoryInfo where
  name : String := ""
  order : Option Int := none
deriving Repr, DecidableEq, Inhabited

/-- The sort key the organizer uses for a category item:
`x[1].get("order", 99)` in `organize_by_category`. -/
def orderKey (p : String × CategoryInfo) : Int :=
  p.2.order.getD 99

/-- The category a report is bucketed under: `report.get("category", "other")`. -/
def catKey (r : Report) : String :=
  r.category.getD "other"

/-- `organize_by_category` of `build/generate-index.py`.  The category
mapping is a Python dict, embedded as its insertion-ordered item list;
`sorted(categories.items(), key=lambda x: x[1].get("order", 99))` is the
stable ascending sort by `orderKey`, and only ids present in the
`by_category` buckets (i.e. with a nonempty bucket) are emitted, each
bucket holding its reports in input order. -/
def organize_by_category (reports : List Report) (categories : List (String × CategoryInfo)) :
    List (String × CategoryInfo × List Report) :=
  ((sortAscByInt orderKey categories).filter
      (fun p => !(reports.filter (fun r => catKey r == p.1)).isEmpty)).map
    (fun p => (p.1, p.2, reports.filter (fun r => catKey r == p.1)))

/-- The key a report is bucketed under in `organize_by_date`:
`report.get("date", "Unknown")`. -/
def dateBucketKey (r : Report) : String :=
  r.date.getD "Unknown"

/-- First occurrences of each element, in encounter order: the key list of a
Python `defaultdict` filled by one pass over the reports (a key is appended
the first time it is seen). -/
def firstOccurrences (l : List String) : List String :=
  l.foldl (fun acc k => if k ∈ acc then acc else acc ++ [k]) []

/-- `organize_by_date` of `build/generate-index.py`: bucket the reports by
`report.get("date", "Unknown")` (buckets in input order inside, keys in first
occurrence order), then `dict(sorted(by_date.items(), reverse=True))`.  The
keys are pairwise distinct, so sorting the `(key, bucket)` items in reverse
is the descending sort by key. -/
def organize_by_date (reports : List Report) : List (String × List Report) :=
  sortDescByStr (fun p => p.1)
    ((firstOccurrences (reports.map dateBucketKey)).map
      (fun k => (k, reports.filter (fun r => dateBucketKey r == k))))

/-- The label assigned at position `i` of the featured selection. -/
def featuredLabelAt (i : Nat) : String :=
  if i == 0 then "NEW - Latest Research" else "Key Document"

/-- The in-place mutation `get_featured_reports` applies to the record at
position `i` of the (truncated) featured selection:
`if not report.get("featured_label"): report["featured_label"] = ...` then
`report["featured"] = True`. -/
def applyFeaturedMut (i : Nat) (r : Report) : Report :=
  let r1 := if truthyS r.featured_label then r
            else { r with featured_label := some (featuredLabelAt i) }
  { r1 with featured := true }

/-- The date sort key of the backfill in `get_featured_reports`:
`x.get("date", "")`. -/
def dateKey (r : Report) : String :=
  r.date.getD ""

/-- The featured selection of `get_featured_reports`, before truncation and
mutation, tracked together with each record's position in the store:
`featured = [r for r in reports if r.get("featured")]`, and if fewer than 3,
`featured.extend(remaining[:3 - len(featured)])` where `remaining` is the
non-featured records sorted by date descending (stable). -/
def selPairs (reports : List Report) : List (Nat × Report) :=
  let idxed := mapWithIdx (fun i r => (i, r)) 0 reports
  let featured := idxed.filter (fun p => p.2.featured)
  (if featured.length < 3 then
     featured ++
       (sortDescByStr (fun p => dateKey p.2) (idxed.filter (fun p => !p.2.featured))).take
         (3 - featured.length)
   else featured).take 3

/-- `get_featured_reports` of `build/generate-index.py`.  Returns the list the
Python function returns (`featured[:3]`, whose member dicts have been mutated)
together with the updated store (the input list of records, whose selected
members were mutated in place through the aliases held by the selection). -/
def get_featured_reports (reports : List Report) : List Report × List Report :=
  let sel := mapWithIdx (fun i p => (p.1, applyFeaturedMut i p.2)) 0 (selPairs reports)
  (sel.map (fun p => p.2),
   mapWithIdx (fun j r =>
     match sel.find? (fun p => p.1 == j) with
     | some p => p.2
     | none => r) 0 reports)

/-- The store positions of the selected featured records. -/
def selIndices (reports : List Report) : List Nat :=
  (selPairs reports).map (fun p => p.1)

/-- `48 <= c <= 57`, i.e. `c` is an ASCII digit (the `\d` of CPython's
`_strptime` regex). -/
def isDig (c : Char) : Bool :=
  decide (48 ≤ c.toNat ∧ c.toNat ≤ 57)

/-- Numeric value of an ASCII digit. -/
def digitVal (c : Char) : Nat :=
  c.toNat - 48

/-- The `%m` fragment of CPython's `_strptime` regex, `1[0-2]|0[1-9]|[1-9]`:
greedy first-match over the alternatives, returning the month value and the
unconsumed characters.  (No successful backtracking is possible: whenever a
two-digit alternative matches, the one-digit fallback would leave a digit
where the surrounding pattern demands `-` or the end.) -/
def parseMonth : List Char → Option (Nat × List Char)
  | c1 :: c2 :: rest =>
    if c1 = '1' ∧ 48 ≤ c2.toNat ∧ c2.toNat ≤ 50 then some (10 + digitVal c2, rest)
    else if c1 = '0' ∧ 49 ≤ c2.toNat ∧ c2.toNat ≤ 57 then some (digitVal c2, rest)
    else if 49 ≤ c1.toNat ∧ c1.toNat ≤ 57 then some (digitVal c1, c2 :: rest)
    else none
  | [c1] =>
    if 49 ≤ c1.toNat ∧ c1.toNat ≤ 57 then some (digitVal c1, []) else none
  | [] => none

/-- The `%d` fragment of CPython's `_strptime` regex,
`3[01]|[12]\d|0[1-9]|[1-9]` (greedy first-match, as for `parseMonth`). -/
def parseDay : List Char → Option (Nat × List Char)
  | c1 :: c2 :: rest =>
    if c1 = '3' ∧ 48 ≤ c2.toNat ∧ c2.toNat ≤ 49 then some (30 + digitVal c2, rest)
    else if (49 ≤ c1.toNat ∧ c1.toNat ≤ 50) ∧ (48 ≤ c2.toNat ∧ c2.toNat ≤ 57) then
      some (10 * digitVal c1 + digitVal c2, rest)
    else if c1 = '0' ∧ 49 ≤ c2.toNat ∧ c2.toNat ≤ 57 then some (digitVal c2, rest)
    else if 49 ≤ c1.toNat ∧ c1.toNat ≤ 57 then some (digitVal c1, c2 :: rest)
    else none
  | [c1] =>
    if 49 ≤ c1.toNat ∧ c1.toNat ≤ 57 then some (digitVal c1, []) else none
  | [] => none

/-- Gregorian leap-year rule used by `datetime.date`. -/
def isLeap (y : Nat) : Bool :=
  y % 4 == 0 && (y % 100 != 0 || y % 400 == 0)

/-- Days in a month, as validated by the `datetime.date` constructor. -/
def daysInMonth (y m : Nat) : Nat :=
  if m = 2 then (if isLeap y then 29 else 28)
  else if m = 4 ∨ m = 6 ∨ m = 9 ∨ m = 11 then 30
  else 31

/-- `datetime.strptime(s, "%Y-%m-%d")`, modelled from CPython's `_strptime`:
the regex `\d\d\d\d-(1[0-2]|0[1-9]|[1-9])-(3[01]|[12]\d|0[1-9]|[1-9])` must
match the whole string (any unconverted remainder raises `ValueError`), and
the `datetime.date` constructor then requires `MINYEAR = 1 ≤ year` and a
calendar-valid day for the month (otherwise `ValueError`). -/
def parseYMDL : List Char → Option (Nat × Nat × Nat)
  | y1 :: y2 :: y3 :: y4 :: h1 :: rest =>
    if h1 = '-' ∧ isDig y1 ∧ isDig y2 ∧ isDig y3 ∧ isDig y4 then
      let y := 1000 * digitVal y1 + 100 * digitVal y2 + 10 * digitVal y3 + digitVal y4
      match parseMonth rest with
      | some (m, h2 :: rest2) =>
        if h2 = '-' then
          match parseDay rest2 with
          | some (d, rest3) =>
            if rest3 = [] ∧ 1 ≤ y ∧ d ≤ daysInMonth y m then some (y, m, d) else none
          | none => none
        else none
      | _ => none
    else none
  | _ => none

/-- `datetime.strptime(date_str, "%Y-%m-%d")` on a string. -/
def parseYMD (s : String) : Option (Nat × Nat × Nat) :=
  parseYMDL s.data

/-- The `%B` month names of `strftime` in the C locale. -/
def monthName (m : Nat) : String :=
  if m = 1 then "January" else if m = 2 then "February" else if m = 3 then "March"
  else if m = 4 then "April" else if m = 5 then "May" else if m = 6 then "June"
  else if m = 7 then "July" else if m = 8 then "August" else if m = 9 then "September"
  else if m = 10 then "October" else if m = 11 then "November" else "December"

/-- The `%d` field of `strftime`: day zero-padded to two digits. -/
def pad2 (d : Nat) : String :=
  if d < 10 then "0" ++ toString d else toString d

/-- `format_date_label` of `build/generate-index.py`: try
`datetime.strptime(date_str, "%Y-%m-%d")` and render
`strftime("%B %d, %Y")`; the bare `except` returns the input unchanged on
any parse failure.  (`%Y` on glibc prints the year unpadded.) -/
def format_date_label (date_str : String) : String :=
  match parseYMD date_str with
  | some (y, m, d) => monthName m ++ " " ++ pad2 d ++ ", " ++ toString y
  | none => date_str

/-- The date-format test of `validate_report_fields`:
`len(date) == 10 and date[4] == "-" and date[7] == "-"` (Python `and`
short-circuits, so the index accesses are guarded by the length test;
the `getD` defaults are irrelevant once the length is 10). -/
def pyDateOk (date : String) : Bool :=
  date.data.length == 10 && date.data.getD 4 ' ' == '-' && date.data.getD 7 ' ' == '-'

/-- The value of `report.get(field)` for one of the five required field
names of `validate_report_fields`. -/
def fieldVal (r : Report) : String → Option String
  | "id" => r.id
  | "filename" => r.filename
  | "title" => r.title
  | "date" => r.date
  | _ => r.category

/-- The required field names, in the order checked. -/
def requiredFields : List String :=
  ["id", "filename", "title", "date", "category"]

/-- `report.get("id", "unknown")`, the id used in error messages. -/
def ridOf (r : Report) : String :=
  r.id.getD "unknown"

/-- Missing-required-field errors emitted for one report by
`validate_report_fields` (a field is missing when its value is falsy). -/
def missingMsgs (r : Report) : List String :=
  let rid := ridOf r
  (requiredFields.filter (fun f => !truthyS (fieldVal r f))).map
    (fun f => s!"Report '{rid}' missing required field: {f}")

/-- Date-format errors emitted for one report by `validate_report_fields`:
`date = report.get("date", "")`, checked only when truthy. -/
def dateMsgs (r : Report) : List String :=
  let date := r.date.getD ""
  let rid := ridOf r
  if !date.isEmpty && !pyDateOk date then
    [s!"Report '{rid}' has invalid date format: {date} (expected YYYY-MM-DD)"]
  else []

/-- Unknown-category warnings emitted for one report (warnings, not fatal). -/
def catWarnMsgs (r : Report) : List String :=
  let valid := ["solana", "slm", "vertical", "kya", "vc", "cross-chain"]
  let cat := r.category.getD ""
  let rid := ridOf r
  if !cat.isEmpty && !valid.contains cat then
    [s!"Report '{rid}' has unknown category: {cat}"]
  else []

/-- `validate_report_fields` of `build/validate-reports.py`: per report, the
missing-field errors then the date-format error; returns
`(errors, warnings)` as appended to the module-global lists. -/
def validate_report_fields (reports : List Report) : List String × List String :=
  (reports.flatMap (fun r => missingMsgs r ++ dateMsgs r),
   reports.flatMap catWarnMsgs)

/-- The id under which a report is entered in the `ids` dict of
`validate_duplicates`: `report.get("id", "")`. -/
def idKey (r : Report) : String :=
  r.id.getD ""

/-- The filename under which a report is entered in the `filenames` dict of
`validate_duplicates`: `report.get("filename", "")`. -/
def fnKey (r : Report) : String :=
  r.filename.getD ""

/-- The duplicate-id error message. -/
def dupIdMsg (v : String) : String :=
  s!"Duplicate report ID: {v}"

/-- The duplicate-filename error message. -/
def dupFnMsg (v : String) : String :=
  s!"Duplicate filename: {v}"

/-- The single pass of `validate_duplicates`, carrying the key sets of the
`ids` and `filenames` dicts seen so far. -/
def validateDupGo (seenIds seenFns : List String) : List Report → List String
  | [] => []
  | r :: rest =>
    (if idKey r ∈ seenIds then [dupIdMsg (idKey r)] else []) ++
    (if fnKey r ∈ seenFns then [dupFnMsg (fnKey r)] else []) ++
    validateDupGo (idKey r :: seenIds) (fnKey r :: seenFns) rest

/-- `validate_duplicates` of `build/validate-reports.py`. -/
def validate_duplicates (reports : List Report) : List String :=
  validateDupGo [] [] reports

/-- The exit decision of `main` in `build/validate-reports.py`:
`sys.exit(1)` when the accumulated `errors` list is nonempty, else
`sys.exit(0)`.  Warnings never affect the exit code. -/
def buildExitCode (errors : List String) : Nat :=
  if errors.isEmpty then 0 else 1

/-- The exit code of the validation run on a metadata document whose report
list is `reports`.  `otherErrors` stands for the errors contributed by the
validators whose inputs are outside this embedding (missing metadata file,
malformed JSON, schema violation, missing HTML artifacts); they are
accumulated in the same global `errors` list before the field and duplicate
checks run. -/
def validateMainExit (otherErrors : List String) (reports : List Report) : Nat :=
  buildExitCode (otherErrors ++ (validate_report_fields reports).1 ++ validate_duplicates reports)

/-- Python `str.lower()` restricted to the ASCII range, the only range the
migration filenames use (`Char.toLower` maps `A`-`Z` to `a`-`z`). -/
def pyLower (s : String) : String :=
  ⟨s.data.map Char.toLower⟩

/-- Python `str.startswith(prefix)`. -/
def pyStartsWith (s prefix_ : String) : Bool :=
  prefix_.data.isPrefixOf s.data

/-- Membership test of Python `needle in hay` on code-point lists. -/
def infixOfL (needle : List Char) : List Char → Bool
  | [] => needle.isEmpty
  | c :: rest => needle.isPrefixOf (c :: rest) || infixOfL needle rest

/-- Python substring test `needle in hay`. -/
def pyIn (needle hay : String) : Bool :=
  infixOfL needle.data hay.data

/-- `determine_category` of `scripts/migrate.py`, the filename-based
category inference: a chain of `if`/`elif` tests over the filename and its
lowercased form, with default `"slm"`.  Prefix tests (`str.startswith`) are
case-sensitive; substring tests run against `filename.lower()`. -/
def determine_category (filename : String) : String :=
  let fl := pyLower filename
  if pyIn "solana" fl || pyStartsWith filename "SOLANA-" then "solana"
  else if pyStartsWith filename "SLM-" || pyIn "slm" fl then "slm"
  else if pyStartsWith filename "KYA-" || pyStartsWith filename "X402-" then "kya"
  else if pyStartsWith filename "VC-" || pyStartsWith filename "SERIES-A" ||
      pyStartsWith filename "FUNDING-" || pyIn "funding" fl || pyIn "investor" fl ||
      pyIn "benchmark" fl then "vc"
  else if pyStartsWith filename "VERTICAL-" || pyIn "vertical" fl then "vertical"
  else if pyIn "cross-chain" fl then "cross-chain"
  else if pyStartsWith filename "CEO-DEFI" then "vertical"
  else if pyStartsWith filename "CEO-RESEARCH" then
    (if pyIn "solana" fl || pyIn "vibe" fl then "solana"
     else if pyIn "cross-chain" fl then "cross-chain"
     else "solana")
  else "slm"

/-- An ordered `(predicate, category)` rule list with first-match-wins
evaluation and a default, the shape §9 of the spec prescribes for the
category inference. -/
def evalRules (dflt : String) : List ((String → Bool) × String) → String → String
  | [], _ => dflt
  | (p, c) :: rest, f => if p f then c else evalRules dflt rest f

/-- The effective rule sequence of `determine_category`: same tests, in the
same order, with the `CEO-RESEARCH` branch collapsed to its only reachable
outcome `"solana"` (the inner `"cross-chain"` sub-case is dead: the earlier
`"cross-chain"` substring rule has already failed whenever this branch is
reached, and so has the `"solana"` substring test of the first rule). -/
def categoryRules : List ((String → Bool) × String) :=
  [(fun f => pyIn "solana" (pyLower f) || pyStartsWith f "SOLANA-", "solana"),
   (fun f => pyStartsWith f "SLM-" || pyIn "slm" (pyLower f), "slm"),
   (fun f => pyStartsWith f "KYA-" || pyStartsWith f "X402-", "kya"),
   (fun f => pyStartsWith f "VC-" || pyStartsWith f "SERIES-A" ||
       pyStartsWith f "FUNDING-" || pyIn "funding" (pyLower f) ||
       pyIn "investor" (pyLower f) || pyIn "benchmark" (pyLower f), "vc"),
   (fun f => pyStartsWith f "VERTICAL-" || pyIn "vertical" (pyLower f), "vertical"),
   (fun f => pyIn "cross-chain" (pyLower f), "cross-chain"),
   (fun f => pyStartsWith f "CEO-DEFI", "vertical"),
   (fun f => pyStartsWith f "CEO-RESEARCH", "solana")]

/-- A record as produced by the migration extractor (`parse_index_html`):
by the time `create_reports_json` runs, `filename`, `id` and `date` are
always set, so they are plain strings here. -/
structure MReport where
  filename : String := ""
  id : String := ""
  title : Option String := none
  description : Option String := none
  date : String := ""
  category : String := ""
  version : String := ""
  badges : List String := []
  badge_colors : List String := []
  featured : Bool := false
  featured_label : Option String := none
deriving Repr, DecidableEq, Inhabited

/-- One step of the force-flagging loop of `create_reports_json`
(`for i, report in enumerate(reports[:3]): if not report.get("featured"):
report["featured"] = True`), expressed per index over the whole list. -/
def migFlagStep (i : Nat) (r : MReport) : MReport :=
  if i < 3 ∧ !r.featured then { r with featured := true } else r

/-- One step of the labeling loop of `create_reports_json`
(`for i, report in enumerate(reports): if report.get("featured"):
report["featured_label"] = ...`): the label is assigned unconditionally to
every flagged record, positionally by the index in the whole sorted list. -/
def migLabelStep (i : Nat) (r : MReport) : MReport :=
  if r.featured then
    { r with featured_label := some (if i == 0 then "NEW - Latest Research" else "Key Document") }
  else r

/-- The report-list transformation inside `create_reports_json` of
`scripts/migrate.py`: sort by date descending (`reports.sort(key=...,
reverse=True)`), force-flag the first three of the sorted list when fewer
than three records are flagged, then set `featured_label` positionally on
every flagged record.  The JSON metadata wrapper and the file write around
this list are outside the embedding. -/
def create_reports_json (reports : List MReport) : List MReport :=
  let sorted := sortDescByStr (fun r => r.date) reports
  let featured_count := sorted.countP (fun r => r.featured)
  let flagged := if featured_count < 3 then mapWithIdx migFlagStep 0 sorted else sorted
  mapWithIdx migLabelStep 0 flagged

/-- The errors duplicate detection owes record `i` according to the spec:
a duplicate-id error when record `i`'s keyed id already occurred among the
records before `i`, then likewise for the filename; never an error for a
first occurrence. -/
def dupErrorsSpec (rs : List Report) (i : Nat) : List String :=
  (if idKey (rs.getD i default) ∈ (rs.take i).map idKey then
     [dupIdMsg (idKey (rs.getD i default))] else []) ++
  (if fnKey (rs.getD i default) ∈ (rs.take i).map fnKey then
     [dupFnMsg (fnKey (rs.getD i default))] else [])

/-! ## Properties of the stable sort -/

theorem insertLe_perm (leB : α → α → Bool) (a : α) (l : List α) :
    List.Perm (insertLe leB a l) (a :: l) := by
  induction l with
  | nil => simp [insertLe]
  | cons b t ih =>
    by_cases h : leB a b = true
    · simp [insertLe, h]
    · simp only [insertLe, h]
      exact ((ih.cons b).trans (List.Perm.swap a b t))

theorem sortByLe_perm (leB : α → α → Bool) (l : List α) :
    List.Perm (sortByLe leB l) l := by
  induction l with
  | nil => simp [sortByLe]
  | cons a t ih =>
    exact (insertLe_perm leB a (sortByLe leB t)).trans (ih.cons a)

theorem length_sortByLe (leB : α → α → Bool) (l : List α) :
    (sortByLe leB l).length = l.length :=
  (sortByLe_perm leB l).length_eq

theorem mem_sortByLe (leB : α → α → Bool) (l : List α) (x : α) :
    x ∈ sortByLe leB l ↔ x ∈ l :=
  (sortByLe_perm leB l).mem_iff

theorem mem_insertLe (leB : α → α → Bool) (a : α) (l : List α) (x : α) :
    x ∈ insertLe leB a l ↔ x = a ∨ x ∈ l := by
  rw [(insertLe_perm leB a l).mem_iff, List.mem_cons]

theorem pairwise_insertLe (leB : α → α → Bool)
    (htotal : ∀ a b, leB a b = false → leB b a = true)
    (htrans : ∀ a b c, leB a b = true → leB b c = true → leB a c = true)
    (a : α) (l : List α) (hl : l.Pairwise (fun x y => leB x y = true)) :
    (insertLe leB a l).Pairwise (fun x y => leB x y = true) := by
  induction l with
  | nil => simp [insertLe]
  | cons b t ih =>
    rcases List.pairwise_cons.mp hl with ⟨hb, ht⟩
    by_cases h : leB a b = true
    · simp only [insertLe, h, if_true]
      refine List.pairwise_cons.mpr ⟨?_, hl⟩
      intro x hx
      rcases List.mem_cons.mp hx with rfl | hx
      · exact h
      · exact htrans a b x h (hb x hx)
    · simp only [insertLe, h, if_false]
      refine List.pairwise_cons.mpr ⟨?_, ih ht⟩
      intro x hx
      rcases (mem_insertLe leB a t x).mp hx with rfl | hx
      · exact htotal _ _ (Bool.eq_false_iff.mpr h)
      · exact hb x hx

theorem pairwise_sortByLe (leB : α → α → Bool)
    (htotal : ∀ a b, leB a b = false → leB b a = true)
    (htrans : ∀ a b c, leB a b = true → leB b c = true → leB a c = true)
    (l : List α) :
    (sortByLe leB l).Pairwise (fun x y => leB x y = true) := by
  induction l with
  | nil => simp [sortByLe]
  | cons a t ih => exact pairwise_insertLe leB htotal htrans a _ ih

theorem filter_insertLe_pos (leB : α → α → Bool) (p : α → Bool) (a : α) (l : List α)
    (hpa : p a = true) (hcomp : ∀ b, leB a b = false → p b = false) :
    (insertLe leB a l).filter p = a :: l.filter p := by
  induction l with
  | nil => simp [insertLe, hpa]
  | cons b t ih =>
    by_cases h : leB a b = true
    · simp [insertLe, h, hpa]
    · have hpb : p b = false := hcomp b (Bool.eq_false_iff.mpr h)
      simp [insertLe, h, hpb, ih]

theorem filter_insertLe_neg (leB : α → α → Bool) (p : α → Bool) (a : α) (l : List α)
    (hpa : p a = false) :
    (insertLe leB a l).filter p = l.filter p := by
  induction l with
  | nil => simp [insertLe, hpa]
  | cons b t ih =>
    by_cases h : leB a b = true
    · simp [insertLe, h, hpa]
    · by_cases hpb : p b = true
      · simp [insertLe, h, hpb, ih]
      · simp [insertLe, h, Bool.eq_false_iff.mpr hpb, ih]

theorem char_eq_of_toNat_eq {c1 c2 : Char} (h : c1.toNat = c2.toNat) : c1 = c2 :=
  Char.eq_of_val_eq (UInt32.ext h)

theorem strLeL_refl (l : List Char) : strLeL l l = true := by
  induction l with
  | nil => rfl
  | cons a as ih => simp [strLeL, ih]

theorem strLeL_total : ∀ l1 l2 : List Char, strLeL l1 l2 = false → strLeL l2 l1 = true := by
  intro l1
  induction l1 with
  | nil => intro l2 h; simp [strLeL] at h
  | cons a as ih =>
    intro l2 h
    cases l2 with
    | nil => rfl
    | cons b bs =>
      by_cases hab : a.toNat < b.toNat
      · simp [strLeL, hab] at h
      · by_cases hba : b.toNat < a.toNat
        · simp [strLeL, hba]
        · simp only [strLeL, if_neg hab, if_neg hba] at h
          simp only [strLeL, if_neg hba, if_neg hab]
          exact ih bs h

theorem strLeL_trans :
    ∀ l1 l2 l3 : List Char, strLeL l1 l2 = true → strLeL l2 l3 = true →
      strLeL l1 l3 = true := by
  intro l1
  induction l1 with
  | nil => intro l2 l3 _ _; rfl
  | cons a as ih =>
    intro l2 l3 h12 h23
    cases l2 with
    | nil => simp [strLeL] at h12
    | cons b bs =>
      cases l3 with
      | nil => simp [strLeL] at h23
      | cons c cs =>
        by_cases hab : a.toNat < b.toNat
        · by_cases hbc : b.toNat < c.toNat
          · simp [strLeL, show a.toNat < c.toNat by omega]
          · by_cases hcb : c.toNat < b.toNat
            · simp [strLeL, hbc, hcb] at h23
            · simp [strLeL, show a.toNat < c.toNat by omega]
        · by_cases hba : b.toNat < a.toNat
          · simp [strLeL, hab, hba] at h12
          · by_cases hbc : b.toNat < c.toNat
            · simp [strLeL, show a.toNat < c.toNat by omega]
            · by_cases hcb : c.toNat < b.toNat
              · simp [strLeL, hbc, hcb] at h23
              · simp only [strLeL, if_neg hab, if_neg hba] at h12
                simp only [strLeL, if_neg hbc, if_neg hcb] at h23
                simp only [strLeL, if_neg (show ¬ a.toNat < c.toNat by omega),
                  if_neg (show ¬ c.toNat < a.toNat by omega)]
                exact ih bs cs h12 h23

theorem strLeL_antisymm :
    ∀ l1 l2 : List Char, strLeL l1 l2 = true → strLeL l2 l1 = true → l1 = l2 := by
  intro l1
  induction l1 with
  | nil =>
    intro l2 h12 h21
    cases l2 with
    | nil => rfl
    | cons b bs => simp [strLeL] at h21
  | cons a as ih =>
    intro l2 h12 h21
    cases l2 with
    | nil => simp [strLeL] at h12
    | cons b bs =>
      by_cases hab : a.toNat < b.toNat
      · simp [strLeL, hab] at h21
        omega
      · by_cases hba : b.toNat < a.toNat
        · simp [strLeL, hab, hba] at h12
        · simp only [strLeL, if_neg hab, if_neg hba] at h12
          simp only [strLeL, if_neg hba, if_neg hab] at h21
          have hc : a = b := char_eq_of_toNat_eq (by omega)
          rw [hc, ih bs h12 h21]

theorem pyStrLe_refl (s : String) : pyStrLe s s = true :=
  strLeL_refl s.data

theorem pyStrLe_total (s t : String) (h : pyStrLe s t = false) : pyStrLe t s = true :=
  strLeL_total s.data t.data h

theorem pyStrLe_trans (s t u : String) (h1 : pyStrLe s t = true) (h2 : pyStrLe t u = true) :
    pyStrLe s u = true :=
  strLeL_trans s.data t.data u.data h1 h2

theorem pyStrLe_antisymm (s t : String) (h1 : pyStrLe s t = true) (h2 : pyStrLe t s = true) :
    s = t := by
  cases s with
  | mk d1 =>
    cases t with
    | mk d2 =>
      exact congrArg String.mk (strLeL_antisymm d1 d2 h1 h2)

/-- Stability of the sort: the elements satisfying `p` keep their original
relative order whenever `p`-elements are pairwise `leB`-equivalent enough
that the comparison never separates them. -/
theorem filter_sortByLe (leB : α → α → Bool) (p : α → Bool)
    (hp : ∀ a b, p a = true → p b = true → leB a b = true) (l : List α) :
    (sortByLe leB l).filter p = l.filter p := by
  induction l with
  | nil => simp [sortByLe]
  | cons a t ih =>
    by_cases hpa : p a = true
    · have : (insertLe leB a (sortByLe leB t)).filter p = a :: (sortByLe leB t).filter p := by
        refine filter_insertLe_pos leB p a _ hpa ?_
        intro b hb
        cases hpbv : p b
        · rfl
        · exact absurd (hp a b hpa hpbv) (by simp [hb])
      simp [sortByLe, this, ih, hpa]
    · have hpa' : p a = false := Bool.eq_false_iff.mpr hpa
      simp [sortByLe, filter_insertLe_neg leB p a _ hpa', ih, hpa']

end Catalogue





namespace Catalogue

/-! ## Properties of `mapWithIdx` -/

theorem length_mapWithIdx (f : Nat → α → β) :
    ∀ (n : Nat) (l : List α), (mapWithIdx f n l).length = l.length := by
  intro n l
  induction l generalizing n with
  | nil => rfl
  | cons a t ih => simp [mapWithIdx, ih]

theorem map_mapWithIdx (f : Nat → α → β) (g : β → γ) :
    ∀ (n : Nat) (l : List α),
      (mapWithIdx f n l).map g = mapWithIdx (fun i a => g (f i a)) n l := by
  intro n l
  induction l generalizing n with
  | nil => rfl
  | cons a t ih => simp [mapWithIdx, ih]

theorem mapWithIdx_comp_map (h : Nat → γ → β) (g : α → γ) :
    ∀ (n : Nat) (l : List α),
      mapWithIdx (fun i a => h i (g a)) n l = mapWithIdx h n (l.map g) := by
  intro n l
  induction l generalizing n with
  | nil => rfl
  | cons a t ih => simp [mapWithIdx, ih]

theorem filter_enumIdx_map_snd (q : α → Bool) :
    ∀ (n : Nat) (l : List α),
      ((mapWithIdx (fun i r => (i, r)) n l).filter (fun p => q p.2)).map
          (fun p => p.2) =
        l.filter q := by
  intro n l
  induction l generalizing n with
  | nil => rfl
  | cons a t ih =>
    by_cases h : q a = true
    · simp [mapWithIdx, h, ih]
    · simp [mapWithIdx, Bool.eq_false_iff.mpr h, ih]

theorem map_insertLe (f : α → β) (leB' : α → α → Bool) (leB : β → β → Bool)
    (hc : ∀ a b, leB' a b = leB (f a) (f b)) (a : α) (l : List α) :
    (insertLe leB' a l).map f = insertLe leB (f a) (l.map f) := by
  induction l with
  | nil => rfl
  | cons b t ih =>
    by_cases h : leB' a b = true
    · simp [insertLe, h, ← hc]
    · simp [insertLe, h, ← hc, ih, Bool.eq_false_iff.mpr h]

theorem map_sortByLe (f : α → β) (leB' : α → α → Bool) (leB : β → β → Bool)
    (hc : ∀ a b, leB' a b = leB (f a) (f b)) (l : List α) :
    (sortByLe leB' l).map f = sortByLe leB (l.map f) := by
  induction l with
  | nil => rfl
  | cons a t ih =>
    simp only [sortByLe, List.map_cons]
    rw [map_insertLe f leB' leB hc, ih]

theorem getD_mapWithIdx (f : Nat → α → α) (d : α) :
    ∀ (l : List α) (n k : Nat), k < l.length →
      (mapWithIdx f n l).getD k d = f (n + k) (l.getD k d) := by
  intro l
  induction l with
  | nil => intro n k h; simp at h
  | cons a t ih =>
    intro n k h
    cases k with
    | zero => simp [mapWithIdx]
    | succ k =>
      simp only [mapWithIdx, List.getD_cons_succ]
      rw [ih (n + 1) k (by simpa using Nat.lt_of_succ_lt_succ h)]
      congr 1
      omega

theorem mem_enumIdx [Inhabited α] :
    ∀ (l : List α) (n : Nat) (p : Nat × α),
      p ∈ mapWithIdx (fun i r => (i, r)) n l →
      n ≤ p.1 ∧ p.1 - n < l.length ∧ p.2 = l.getD (p.1 - n) default := by
  intro l
  induction l with
  | nil => intro n p h; simp [mapWithIdx] at h
  | cons a t ih =>
    intro n p h
    simp only [mapWithIdx, List.mem_cons] at h
    rcases h with rfl | h
    · simp
    · rcases ih (n + 1) p h with ⟨h1, h2, h3⟩
      refine ⟨by omega, by simpa [show p.1 - n = (p.1 - (n + 1)) + 1 by omega] using h2, ?_⟩
      rw [h3]
      have : p.1 - n = (p.1 - (n + 1)) + 1 := by omega
      rw [this, List.getD_cons_succ]

theorem length_filter_not_add (p : α → Bool) (l : List α) :
    (l.filter p).length + (l.filter (fun a => !p a)).length = l.length := by
  induction l with
  | nil => rfl
  | cons a t ih =>
    cases h : p a <;> simp [List.filter_cons, h] <;> omega

end Catalogue

namespace Catalogue

theorem selPairs_map_snd (rs : List Report) :
    (selPairs rs).map (fun p => p.2) =
      (if (rs.filter (fun r => r.featured)).length < 3 then
         rs.filter (fun r => r.featured) ++
           (sortDescByStr dateKey (rs.filter (fun r => !r.featured))).take
             (3 - (rs.filter (fun r => r.featured)).length)
       else rs.filter (fun r => r.featured)).take 3 := by
  have hA : ((mapWithIdx (fun i r => (i, r)) 0 rs).filter (fun p => p.2.featured)).map
      (fun p => p.2) = rs.filter (fun r => r.featured) :=
    filter_enumIdx_map_snd (fun r => r.featured) 0 rs
  have hN : ((mapWithIdx (fun i r => (i, r)) 0 rs).filter (fun p => !p.2.featured)).map
      (fun p => p.2) = rs.filter (fun r => !r.featured) :=
    filter_enumIdx_map_snd (fun r => !r.featured) 0 rs
  have hlenA : ((mapWithIdx (fun i r => (i, r)) 0 rs).filter (fun p => p.2.featured)).length
      = (rs.filter (fun r => r.featured)).length := by
    rw [← hA, List.length_map]
  have hsort : ((sortDescByStr (fun p : Nat × Report => dateKey p.2)
        ((mapWithIdx (fun i r => (i, r)) 0 rs).filter (fun p => !p.2.featured))).map
          (fun p => p.2)) =
      sortDescByStr dateKey (rs.filter (fun r => !r.featured)) := by
    rw [show (sortDescByStr (fun p : Nat × Report => dateKey p.2)
        ((mapWithIdx (fun i r => (i, r)) 0 rs).filter (fun p => !p.2.featured))) =
        sortByLe (fun a b : Nat × Report => pyStrLe (dateKey b.2) (dateKey a.2))
          ((mapWithIdx (fun i r => (i, r)) 0 rs).filter (fun p => !p.2.featured)) from rfl]
    rw [map_sortByLe (fun p => p.2)
      (fun a b : Nat × Report => pyStrLe (dateKey b.2) (dateKey a.2))
      (fun a b : Report => pyStrLe (dateKey b) (dateKey a)) (fun _ _ => rfl)]
    rw [hN]
    rfl
  simp only [selPairs]
  rw [List.map_take, apply_ite (List.map (fun p : Nat × Report => p.2)),
    List.map_append, hA, List.map_take, hsort, hlenA]

/-- **C1**.  Featured selection returns exactly `min 3 n` records for an
`n`-record store: when at least 3 records are pre-flagged the result is the
first 3 pre-flagged records in input order (with the in-place labeling map
applied to them); otherwise it is all pre-flagged records in input order
followed by the non-flagged records sorted by date string descending,
truncated to 3.  The backfill sort is descending on the `dateKey` and
stable: records with equal date keys keep their input relative order. -/
theorem get_featured_reports_C1 (rs : List Report) :
    ((get_featured_reports rs).1.length = min 3 rs.length) ∧
    ((get_featured_reports rs).1 =
      mapWithIdx applyFeaturedMut 0
        ((if (rs.filter (fun r => r.featured)).length < 3 then
            rs.filter (fun r => r.featured) ++
              (sortDescByStr dateKey (rs.filter (fun r => !r.featured))).take
                (3 - (rs.filter (fun r => r.featured)).length)
          else rs.filter (fun r => r.featured)).take 3)) ∧
    ((sortDescByStr dateKey (rs.filter (fun r => !r.featured))).Pairwise
      (fun a b => pyStrLe (dateKey b) (dateKey a) = true)) ∧
    (∀ k : String,
      (sortDescByStr dateKey (rs.filter (fun r => !r.featured))).filter
          (fun r => dateKey r == k) =
        (rs.filter (fun r => !r.featured)).filter (fun r => dateKey r == k)) := by
  have hmain : (get_featured_reports rs).1 =
      mapWithIdx applyFeaturedMut 0 ((selPairs rs).map (fun p => p.2)) := by
    show (mapWithIdx (fun i p => (p.1, applyFeaturedMut i p.2)) 0 (selPairs rs)).map
        (fun p => p.2) = _
    rw [map_mapWithIdx, mapWithIdx_comp_map]
  have hmain2 := hmain.trans (by rw [selPairs_map_snd])
  refine ⟨?_, hmain2, ?_, ?_⟩
  · rw [hmain2, length_mapWithIdx, List.length_take]
    have hpart := length_filter_not_add (fun r => r.featured) rs
    have hle := List.length_filter_le (fun r => r.featured) rs
    by_cases hc : (rs.filter (fun r => r.featured)).length < 3
    · rw [if_pos hc, List.length_append, List.length_take]
      rw [show (sortDescByStr dateKey (rs.filter (fun r => !r.featured))).length =
          (rs.filter (fun r => !r.featured)).length from
        length_sortByLe _ _]
      omega
    · rw [if_neg hc]
      omega
  · show (sortByLe (fun a b : Report => pyStrLe (dateKey b) (dateKey a))
        (rs.filter (fun r => !r.featured))).Pairwise
        (fun a b => pyStrLe (dateKey b) (dateKey a) = true)
    exact pairwise_sortByLe (fun a b : Report => pyStrLe (dateKey b) (dateKey a))
      (fun a b h => pyStrLe_total _ _ h)
      (fun a b c h1 h2 => pyStrLe_trans _ _ _ h2 h1)
      (rs.filter (fun r => !r.featured))
  · intro k
    show (sortByLe (fun a b : Report => pyStrLe (dateKey b) (dateKey a))
        (rs.filter (fun r => !r.featured))).filter (fun r => dateKey r == k) =
      (rs.filter (fun r => !r.featured)).filter (fun r => dateKey r == k)
    refine filter_sortByLe (fun a b : Report => pyStrLe (dateKey b) (dateKey a))
      (fun r => dateKey r == k) ?_ _
    intro a b ha hb
    have ha' : dateKey a = k := by simpa using ha
    have hb' : dateKey b = k := by simpa using hb
    show pyStrLe (dateKey b) (dateKey a) = true
    rw [ha', hb']
    exact pyStrLe_refl k

end Catalogue

namespace Catalogue

theorem foldl_firstOcc_mem (x : String) :
    ∀ (l acc : List String),
      (x ∈ l.foldl (fun acc k => if k ∈ acc then acc else acc ++ [k]) acc) ↔
        (x ∈ acc ∨ x ∈ l) := by
  intro l
  induction l with
  | nil => intro acc; simp
  | cons k t ih =>
    intro acc
    by_cases hk : k ∈ acc
    · simp only [List.foldl_cons, if_pos hk, ih, List.mem_cons]
      constructor
      · rintro (h | h)
        · exact Or.inl h
        · exact Or.inr (Or.inr h)
      · rintro (h | rfl | h)
        · exact Or.inl h
        · exact Or.inl hk
        · exact Or.inr h
    · simp only [List.foldl_cons, if_neg hk, ih, List.mem_append,
        List.mem_singleton, List.mem_cons]
      tauto

theorem mem_firstOccurrences (l : List String) (x : String) :
    x ∈ firstOccurrences l ↔ x ∈ l := by
  rw [firstOccurrences, foldl_firstOcc_mem]
  simp

theorem foldl_firstOcc_nodup :
    ∀ (l acc : List String), acc.Nodup →
      (l.foldl (fun acc k => if k ∈ acc then acc else acc ++ [k]) acc).Nodup := by
  intro l
  induction l with
  | nil => intro acc h; simpa using h
  | cons k t ih =>
    intro acc h
    by_cases hk : k ∈ acc
    · simpa [List.foldl_cons, if_pos hk] using ih acc h
    · have hacc : (acc ++ [k]).Nodup :=
        ((List.perm_append_singleton k acc).nodup_iff).mpr (List.nodup_cons.mpr ⟨hk, h⟩)
      simpa [List.foldl_cons, if_neg hk] using ih (acc ++ [k]) hacc

theorem nodup_firstOccurrences (l : List String) : (firstOccurrences l).Nodup :=
  foldl_firstOcc_nodup l [] List.nodup_nil

/-- **C2 counterexample**.  A record whose `date` is present but does not
parse as `YYYY-MM-DD` is bucketed under its own date string, not under the
`"Unknown"` sentinel the claim prescribes for unparseable dates. -/
theorem organize_by_date_C2_counterexample :
    (organize_by_date [{ date := some "not-a-date" }]).map (fun p => p.1) =
        ["not-a-date"] ∧
      parseYMD "not-a-date" = none ∧ ("not-a-date" : String) ≠ "Unknown" := by
  refine ⟨by decide, by decide, by decide⟩

/-- **C2** (amended).  `organize_by_date` buckets each record under its exact
date string — only an absent `date` key buckets under the sentinel
`"Unknown"`; a present but unparseable date string buckets under itself —
and the emitted buckets are keyed in strictly descending lexicographic order
of the key strings: the output holds exactly one `(key, bucket)` pair for
each key with a nonempty bucket, the bucket being that key's records in
input order. -/
theorem organize_by_date_C2 (rs : List Report) :
    ((organize_by_date rs).Pairwise (fun p q => pyStrLe p.1 q.1 = false)) ∧
    (∀ (k : String) (b : List Report), (k, b) ∈ organize_by_date rs ↔
      (b = rs.filter (fun r => dateBucketKey r == k) ∧ b ≠ [])) ∧
    (∀ r : Report, r.date = none → dateBucketKey r = "Unknown") ∧
    (∀ (r : Report) (s : String), r.date = some s → dateBucketKey r = s) := by
  have hmapfst : ∀ ks : List String,
      (ks.map (fun k => (k, rs.filter (fun r => dateBucketKey r == k)))).map
        (fun p => p.1) = ks := by
    intro ks
    induction ks with
    | nil => rfl
    | cons a t ih => simp [ih]
  have hout : organize_by_date rs =
      sortByLe (fun p q : String × List Report => pyStrLe q.1 p.1)
        ((firstOccurrences (rs.map dateBucketKey)).map
          (fun k => (k, rs.filter (fun r => dateBucketKey r == k)))) := rfl
  refine ⟨?_, ?_, ?_, ?_⟩
  · have h1 := pairwise_sortByLe (fun p q : String × List Report => pyStrLe q.1 p.1)
      (fun a b h => pyStrLe_total _ _ h)
      (fun a b c h1 h2 => pyStrLe_trans _ _ _ h2 h1)
      ((firstOccurrences (rs.map dateBucketKey)).map
        (fun k => (k, rs.filter (fun r => dateBucketKey r == k))))
    rw [← hout] at h1
    have hperm : List.Perm (organize_by_date rs)
        ((firstOccurrences (rs.map dateBucketKey)).map
          (fun k => (k, rs.filter (fun r => dateBucketKey r == k)))) := by
      rw [hout]; exact sortByLe_perm _ _
    have hkeys : ((organize_by_date rs).map (fun p => p.1)).Nodup := by
      refine (List.Perm.nodup_iff (hperm.map (fun p => p.1))).mpr ?_
      rw [hmapfst]
      exact nodup_firstOccurrences _
    have hne : (organize_by_date rs).Pairwise (fun p q => p.1 ≠ q.1) :=
      List.pairwise_map.mp hkeys
    refine (h1.and hne).imp ?_
    rintro a b ⟨hle, hnee⟩
    cases hlt : pyStrLe a.1 b.1
    · rfl
    · exact absurd (pyStrLe_antisymm _ _ hlt hle) hnee
  · intro k b
    rw [hout, mem_sortByLe, List.mem_map]
    constructor
    · rintro ⟨k2, hk2, heq⟩
      have h1 : k2 = k := congrArg Prod.fst heq
      have h2 : rs.filter (fun r => dateBucketKey r == k2) = b := congrArg Prod.snd heq
      rw [h1] at h2 hk2
      refine ⟨h2.symm, ?_⟩
      have hk3 := (mem_firstOccurrences _ k).mp hk2
      rcases List.mem_map.mp hk3 with ⟨r, hr, hrk⟩
      have hmem : r ∈ rs.filter (fun r => dateBucketKey r == k) :=
        List.mem_filter.mpr ⟨hr, by simp [hrk]⟩
      rw [← h2]
      exact List.ne_nil_of_mem hmem
    · rintro ⟨hbv, hne⟩
      refine ⟨k, ?_, by rw [hbv]⟩
      rcases List.exists_mem_of_ne_nil _ hne with ⟨r, hr⟩
      rw [hbv] at hr
      rcases List.mem_filter.mp hr with ⟨hrs, hrk⟩
      refine (mem_firstOccurrences _ k).mpr ?_
      refine List.mem_map.mpr ⟨r, hrs, ?_⟩
      simpa using hrk
  · intro r h
    simp [dateBucketKey, h]
  · intro r s h
    simp [dateBucketKey, h]

/-- **C2 witness**: the keying conjuncts of `organize_by_date_C2`
instantiated at concrete records. -/
theorem organize_by_date_C2_witness :
    dateBucketKey { date := none } = "Unknown" ∧
      dateBucketKey { date := some "2026-01-19" } = "2026-01-19" := by
  exact ⟨(organize_by_date_C2 []).2.2.1 { date := none } rfl,
    (organize_by_date_C2 []).2.2.2 { date := some "2026-01-19" } "2026-01-19" rfl⟩

end Catalogue

namespace Catalogue

/-- **C3**.  `organize_by_category` contains exactly the categories with a
nonempty bucket, each bucket listing its reports in input-list order; the
emitted entries are in non-decreasing declared `order` (`order` read with
default 99); and, for every order value `k`, the entries of order `k` are
exactly the nonempty-bucket category definitions of order `k` in their
insertion order in the category mapping (ties broken by insertion order). -/
theorem organize_by_category_C3 (rs : List Report) (cats : List (String × CategoryInfo)) :
    (∀ e ∈ organize_by_category rs cats,
       e.2.2 = rs.filter (fun r => catKey r == e.1) ∧ e.2.2 ≠ []) ∧
    (((organize_by_category rs cats).map (fun e => orderKey (e.1, e.2.1))).Pairwise
      (fun x y : Int => x ≤ y)) ∧
    (∀ k : Int,
      (organize_by_category rs cats).filter (fun e => orderKey (e.1, e.2.1) == k) =
        ((cats.filter (fun p => orderKey p == k)).filter
            (fun p => !(rs.filter (fun r => catKey r == p.1)).isEmpty)).map
          (fun p => (p.1, p.2, rs.filter (fun r => catKey r == p.1)))) := by
  have hsorted := pairwise_sortByLe
    (fun a b : String × CategoryInfo => decide (orderKey a ≤ orderKey b))
    (fun a b h => by
      simp only [decide_eq_false_iff_not, not_le] at h
      simpa using le_of_lt h)
    (fun a b c h1 h2 => by
      simp only [decide_eq_true_eq] at h1 h2 ⊢
      exact le_trans h1 h2)
    cats
  refine ⟨?_, ?_, ?_⟩
  · intro e he
    rcases List.mem_map.mp he with ⟨p, hp, hpe⟩
    rcases List.mem_filter.mp hp with ⟨hpsort, hpne⟩
    subst hpe
    refine ⟨rfl, ?_⟩
    intro hnil
    have hnil2 : rs.filter (fun r => catKey r == p.1) = [] := hnil
    rw [hnil2] at hpne
    simp at hpne
  · rw [organize_by_category]
    rw [List.map_map]
    have hcomp : ((fun e : String × CategoryInfo × List Report => orderKey (e.1, e.2.1)) ∘
        (fun p : String × CategoryInfo =>
          (p.1, p.2, rs.filter (fun r => catKey r == p.1)))) = orderKey := by
      funext p
      rfl
    rw [hcomp]
    have hfil : ((sortAscByInt orderKey cats).filter
        (fun p => !(rs.filter (fun r => catKey r == p.1)).isEmpty)).Pairwise
        (fun a b : String × CategoryInfo =>
          decide (orderKey a ≤ orderKey b) = true) :=
      List.Pairwise.sublist (List.filter_sublist _) hsorted
    refine List.pairwise_map.mpr (hfil.imp ?_)
    intro a b h
    exact of_decide_eq_true h
  · intro k
    rw [organize_by_category, List.filter_map]
    have hpred : ((fun e : String × CategoryInfo × List Report =>
        orderKey (e.1, e.2.1) == k) ∘
        (fun p : String × CategoryInfo =>
          (p.1, p.2, rs.filter (fun r => catKey r == p.1)))) =
        (fun p => orderKey p == k) := by
      funext p
      rfl
    rw [hpred]
    congr 1
    have hstab : (sortAscByInt orderKey cats).filter (fun p => orderKey p == k) =
        cats.filter (fun p => orderKey p == k) := by
      refine filter_sortByLe _ _ ?_ cats
      intro a b ha hb
      have ha2 : orderKey a = k := by simpa using ha
      have hb2 : orderKey b = k := by simpa using hb
      simp [ha2, hb2]
    have hcomm : ((sortAscByInt orderKey cats).filter
        (fun p => !(rs.filter (fun r => catKey r == p.1)).isEmpty)).filter
          (fun p => orderKey p == k) =
        ((sortAscByInt orderKey cats).filter (fun p => orderKey p == k)).filter
          (fun p => !(rs.filter (fun r => catKey r == p.1)).isEmpty) := by
      rw [List.filter_filter, List.filter_filter]
      refine List.filter_congr ?_
      intro p _
      rw [Bool.and_comm]
    rw [hcomm, hstab]

/-- **C3 witness**: the bucket conjunct of `organize_by_category_C3`
instantiated at a one-report, one-category store. -/
theorem organize_by_category_C3_witness :
    (("slm", ({ name := "L", order := some 2 } : CategoryInfo),
        [({ category := some "slm" } : Report)]).2.2 =
      ([({ category := some "slm" } : Report)]).filter (fun r => catKey r == "slm")) ∧
    (("slm", ({ name := "L", order := some 2 } : CategoryInfo),
        [({ category := some "slm" } : Report)]).2.2 ≠ []) :=
  (organize_by_category_C3 [{ category := some "slm" }]
      [("slm", { name := "L", order := some 2 })]).1
    ("slm", { name := "L", order := some 2 }, [{ category := some "slm" }])
    (by decide)

end Catalogue

namespace Catalogue

/-- **C4**.  The Field Validator's date check accepts a non-empty date
string exactly when it is 10 characters with `-` at zero-based positions 4
and 7 (stated as: the character list splits as 4 chars, `-`, 2 chars, `-`,
2 chars); it accepts `"2026-01-19"` and rejects `"2026/01/19"` and
`"19-01-2026"`; the check only runs on truthy dates, and a rejection makes
the validation run exit nonzero whatever the other validators report. -/
theorem validate_date_C4 :
    (pyDateOk "2026-01-19" = true ∧ pyDateOk "2026/01/19" = false ∧
      pyDateOk "19-01-2026" = false) ∧
    (∀ d : String, pyDateOk d = true ↔
      ∃ a b c : List Char, d.data = a ++ '-' :: (b ++ '-' :: c) ∧
        a.length = 4 ∧ b.length = 2 ∧ c.length = 2) ∧
    (∀ r : Report, dateMsgs r ≠ [] ↔
      (truthyS r.date = true ∧ pyDateOk (r.date.getD "") = false)) ∧
    (∀ (other : List String) (rs : List Report) (r : Report), r ∈ rs →
      dateMsgs r ≠ [] → validateMainExit other rs = 1) := by
  refine ⟨⟨by decide, by decide, by decide⟩, ?_, ?_, ?_⟩
  · intro d
    constructor
    · intro h
      simp only [pyDateOk, Bool.and_eq_true, beq_iff_eq] at h
      obtain ⟨⟨h10, h4⟩, h7⟩ := h
      have h4lt : 4 < d.data.length := by omega
      have h7lt : 7 < d.data.length := by omega
      have hg4 : d.data[4] = '-' := by
        rw [← List.getD_eq_getElem d.data ' ' h4lt]
        exact h4
      have hg7 : d.data[7] = '-' := by
        rw [← List.getD_eq_getElem d.data ' ' h7lt]
        exact h7
      refine ⟨d.data.take 4, (d.data.drop 5).take 2, d.data.drop 8, ?_, ?_, ?_, ?_⟩
      · calc d.data = d.data.take 4 ++ d.data.drop 4 := (List.take_append_drop 4 _).symm
          _ = d.data.take 4 ++ (d.data[4] :: d.data.drop 5) := by
              rw [← List.drop_eq_getElem_cons h4lt]
          _ = d.data.take 4 ++ ('-' :: d.data.drop 5) := by rw [hg4]
          _ = d.data.take 4 ++
              ('-' :: ((d.data.drop 5).take 2 ++ (d.data.drop 5).drop 2)) := by
              rw [List.take_append_drop]
          _ = d.data.take 4 ++ ('-' :: ((d.data.drop 5).take 2 ++ d.data.drop 7)) := by
              rw [List.drop_drop]
          _ = d.data.take 4 ++
              ('-' :: ((d.data.drop 5).take 2 ++ (d.data[7] :: d.data.drop 8))) := by
              rw [← List.drop_eq_getElem_cons h7lt]
          _ = d.data.take 4 ++
              ('-' :: ((d.data.drop 5).take 2 ++ ('-' :: d.data.drop 8))) := by rw [hg7]
      · simp [List.length_take, h10]
      · simp [List.length_take, List.length_drop, h10]
      · simp [List.length_drop, h10]
    · rintro ⟨a, b, c, hd, ha, hb, hc⟩
      have hlen : d.data.length = 10 := by
        rw [hd]
        simp [List.length_append, ha, hb, hc]
      have hg4 : d.data.getD 4 ' ' = '-' := by
        rw [hd, List.getD_append_right a _ ' ' 4 (by omega)]
        simp [ha]
      have hg7 : d.data.getD 7 ' ' = '-' := by
        rw [hd, List.getD_append_right a _ ' ' 7 (by omega)]
        rw [show (7 - a.length : Nat) = 3 by omega]
        rw [List.getD_cons_succ]
        rw [List.getD_append_right b _ ' ' 2 (by omega)]
        rw [show (2 - b.length : Nat) = 0 by omega]
        rfl
      have hlt4 : 4 < d.data.length := by omega
      have hlt7 : 7 < d.data.length := by omega
      have hge4 : d.data[4] = '-' := by
        rw [← List.getD_eq_getElem d.data ' ' hlt4]
        exact hg4
      have hge7 : d.data[7] = '-' := by
        rw [← List.getD_eq_getElem d.data ' ' hlt7]
        exact hg7
      simp [pyDateOk, hlen, hge4, hge7]
  · intro r
    cases hd : r.date with
    | none =>
      have he : ("" : String).isEmpty = true := by decide
      simp [dateMsgs, truthyS, hd, he]
    | some s =>
      simp only [dateMsgs, truthyS, hd, Option.getD_some]
      by_cases hse : s.isEmpty
      · simp [hse]
      · cases hok : pyDateOk s
        · simp [hse, hok]
        · simp [hse, hok]
  · intro other rs r hr hmsg
    rcases List.exists_mem_of_ne_nil _ hmsg with ⟨x, hx⟩
    have hxf : x ∈ (validate_report_fields rs).1 := by
      rw [validate_report_fields]
      exact List.mem_flatMap.mpr ⟨r, hr, List.mem_append_right _ hx⟩
    have hne : other ++ (validate_report_fields rs).1 ++ validate_duplicates rs ≠ [] := by
      intro hnil
      have : x ∈ (other ++ (validate_report_fields rs).1 ++ validate_duplicates rs) :=
        List.mem_append_left _ (List.mem_append_right _ hxf)
      rw [hnil] at this
      simp at this
    rw [validateMainExit, buildExitCode]
    rw [if_neg ?_]
    intro hemp
    exact hne (List.isEmpty_iff.mp hemp)

/-- **C4 witness**: a report whose truthy date fails the positional check
forces a nonzero exit, and the characterizations instantiated concretely. -/
theorem validate_date_C4_witness :
    dateMsgs ({ id := some "r1", date := some "2026/01/19" } : Report) ≠ [] ∧
      validateMainExit [] [{ id := some "r1", date := some "2026/01/19" }] = 1 := by
  refine ⟨?_, ?_⟩
  · exact (validate_date_C4.2.2.1 { id := some "r1", date := some "2026/01/19" }).mpr
      (by decide)
  · exact validate_date_C4.2.2.2 [] [{ id := some "r1", date := some "2026/01/19" }]
      { id := some "r1", date := some "2026/01/19" } (by decide)
      ((validate_date_C4.2.2.1 _).mpr (by decide))

end Catalogue

namespace Catalogue

theorem flatMap_range_succ (f : Nat → List String) (n : Nat) :
    (List.range (n + 1)).flatMap f = f 0 ++ (List.range n).flatMap (fun i => f (i + 1)) := by
  rw [List.range_succ_eq_map]
  simp [List.flatMap_def, List.map_map, Function.comp_def, Nat.succ_eq_add_one]

theorem validateDupGo_spec :
    ∀ (rs : List Report) (ids fns : List String),
      validateDupGo ids fns rs =
        (List.range rs.length).flatMap (fun i =>
          (if idKey (rs.getD i default) ∈ ids ∨
              idKey (rs.getD i default) ∈ (rs.take i).map idKey then
            [dupIdMsg (idKey (rs.getD i default))] else []) ++
          (if fnKey (rs.getD i default) ∈ fns ∨
              fnKey (rs.getD i default) ∈ (rs.take i).map fnKey then
            [dupFnMsg (fnKey (rs.getD i default))] else [])) := by
  intro rs
  induction rs with
  | nil => intro ids fns; rfl
  | cons r rest ih =>
    intro ids fns
    rw [validateDupGo, ih (idKey r :: ids) (fnKey r :: fns)]
    rw [List.length_cons, flatMap_range_succ]
    have hzero :
        ((if idKey ((r :: rest).getD 0 default) ∈ ids ∨
            idKey ((r :: rest).getD 0 default) ∈ ((r :: rest).take 0).map idKey then
          [dupIdMsg (idKey ((r :: rest).getD 0 default))] else []) ++
        (if fnKey ((r :: rest).getD 0 default) ∈ fns ∨
            fnKey ((r :: rest).getD 0 default) ∈ ((r :: rest).take 0).map fnKey then
          [dupFnMsg (fnKey ((r :: rest).getD 0 default))] else [])) =
        ((if idKey r ∈ ids then [dupIdMsg (idKey r)] else []) ++
         (if fnKey r ∈ fns then [dupFnMsg (fnKey r)] else [])) := by
      simp
    refine congrArg₂ (· ++ ·) hzero.symm ?_
    congr 1
    funext i
    have hgd : (r :: rest).getD (i + 1) default = rest.getD i default := rfl
    have htk : ((r :: rest).take (i + 1)) = r :: rest.take i := rfl
    rw [hgd, htk]
    simp only [List.map_cons, List.mem_cons]
    congr 2
    · apply propext
      tauto
    · apply propext
      tauto

/-- **C5**.  Duplicate detection emits, scanning the records in order, a
`Duplicate report ID` error for a record exactly when its keyed id already
occurred among the earlier records (so for the second and every later
occurrence of an id value, reporting that value, and never for a first
occurrence), then likewise a `Duplicate filename` error for its keyed
filename. -/
theorem validate_duplicates_C5 (rs : List Report) :
    validate_duplicates rs = (List.range rs.length).flatMap (dupErrorsSpec rs) := by
  rw [validate_duplicates, validateDupGo_spec]
  congr 1
  funext i
  rw [dupErrorsSpec]
  congr 2
  · apply propext
    simp
  · apply propext
    simp

end Catalogue

namespace Catalogue

theorem validateDupGo_count_id :
    ∀ (rs : List Report) (ids fns : List String),
      (("" ∈ ids → rs.countP (fun r => r.id.isNone) ≤
        (validateDupGo ids fns rs).count (dupIdMsg ""))) ∧
      (rs.countP (fun r => r.id.isNone) ≤
        (validateDupGo ids fns rs).count (dupIdMsg "") + 1) := by
  intro rs
  induction rs with
  | nil =>
    intro ids fns
    exact ⟨fun _ => by simp [validateDupGo], by simp [validateDupGo]⟩
  | cons r rest ih =>
    intro ids fns
    have hsplit : (validateDupGo ids fns (r :: rest)).count (dupIdMsg "") =
        ((if idKey r ∈ ids then [dupIdMsg (idKey r)] else []).count (dupIdMsg "")) +
        ((if fnKey r ∈ fns then [dupFnMsg (fnKey r)] else []).count (dupIdMsg "")) +
        ((validateDupGo (idKey r :: ids) (fnKey r :: fns) rest).count (dupIdMsg "")) := by
      rw [validateDupGo, List.count_append, List.count_append]
    cases hid : r.id with
    | none =>
      have hkey : idKey r = "" := by simp [idKey, hid]
      have hcp : (r :: rest).countP (fun r => r.id.isNone) =
          rest.countP (fun r => r.id.isNone) + 1 := by
        rw [List.countP_cons]
        simp [hid]
      constructor
      · intro hmem
        have hchunk : (if idKey r ∈ ids then [dupIdMsg (idKey r)] else []).count
            (dupIdMsg "") = 1 := by
          rw [hkey, if_pos hmem]
          simp
        have hrec := (ih (idKey r :: ids) (fnKey r :: fns)).1 (by rw [hkey]; exact List.mem_cons_self _ _)
        rw [hsplit, hchunk, hcp]
        omega
      · by_cases hmem : "" ∈ ids
        · have hchunk : (if idKey r ∈ ids then [dupIdMsg (idKey r)] else []).count
              (dupIdMsg "") = 1 := by
            rw [hkey, if_pos hmem]
            simp
          have hrec := (ih (idKey r :: ids) (fnKey r :: fns)).1
            (by rw [hkey]; exact List.mem_cons_self _ _)
          rw [hsplit, hchunk, hcp]
          omega
        · have hrec := (ih (idKey r :: ids) (fnKey r :: fns)).1
            (by rw [hkey]; exact List.mem_cons_self _ _)
          rw [hsplit, hcp]
          omega
    | some s =>
      have hcp : (r :: rest).countP (fun r => r.id.isNone) =
          rest.countP (fun r => r.id.isNone) := by
        rw [List.countP_cons]
        simp [hid]
      constructor
      · intro hmem
        have hrec := (ih (idKey r :: ids) (fnKey r :: fns)).1 (List.mem_cons_of_mem _ hmem)
        rw [hsplit, hcp]
        omega
      · have hrec := (ih (idKey r :: ids) (fnKey r :: fns)).2
        rw [hsplit, hcp]
        omega

theorem validateDupGo_count_fn :
    ∀ (rs : List Report) (ids fns : List String),
      (("" ∈ fns → rs.countP (fun r => r.filename.isNone) ≤
        (validateDupGo ids fns rs).count (dupFnMsg ""))) ∧
      (rs.countP (fun r => r.filename.isNone) ≤
        (validateDupGo ids fns rs).count (dupFnMsg "") + 1) := by
  intro rs
  induction rs with
  | nil =>
    intro ids fns
    exact ⟨fun _ => by simp [validateDupGo], by simp [validateDupGo]⟩
  | cons r rest ih =>
    intro ids fns
    have hsplit : (validateDupGo ids fns (r :: rest)).count (dupFnMsg "") =
        ((if idKey r ∈ ids then [dupIdMsg (idKey r)] else []).count (dupFnMsg "")) +
        ((if fnKey r ∈ fns then [dupFnMsg (fnKey r)] else []).count (dupFnMsg "")) +
        ((validateDupGo (idKey r :: ids) (fnKey r :: fns) rest).count (dupFnMsg "")) := by
      rw [validateDupGo, List.count_append, List.count_append]
    cases hfn : r.filename with
    | none =>
      have hkey : fnKey r = "" := by simp [fnKey, hfn]
      have hcp : (r :: rest).countP (fun r => r.filename.isNone) =
          rest.countP (fun r => r.filename.isNone) + 1 := by
        rw [List.countP_cons]
        simp [hfn]
      constructor
      · intro hmem
        have hchunk : (if fnKey r ∈ fns then [dupFnMsg (fnKey r)] else []).count
            (dupFnMsg "") = 1 := by
          rw [hkey, if_pos hmem]
          simp
        have hrec := (ih (idKey r :: ids) (fnKey r :: fns)).1
          (by rw [hkey]; exact List.mem_cons_self _ _)
        rw [hsplit, hchunk, hcp]
        omega
      · by_cases hmem : "" ∈ fns
        · have hchunk : (if fnKey r ∈ fns then [dupFnMsg (fnKey r)] else []).count
              (dupFnMsg "") = 1 := by
            rw [hkey, if_pos hmem]
            simp
          have hrec := (ih (idKey r :: ids) (fnKey r :: fns)).1
            (by rw [hkey]; exact List.mem_cons_self _ _)
          rw [hsplit, hchunk, hcp]
          omega
        · have hrec := (ih (idKey r :: ids) (fnKey r :: fns)).1
            (by rw [hkey]; exact List.mem_cons_self _ _)
          rw [hsplit, hcp]
          omega
    | some s =>
      have hcp : (r :: rest).countP (fun r => r.filename.isNone) =
          rest.countP (fun r => r.filename.isNone) := by
        rw [List.countP_cons]
        simp [hfn]
      constructor
      · intro hmem
        have hrec := (ih (idKey r :: ids) (fnKey r :: fns)).1 (List.mem_cons_of_mem _ hmem)
        rw [hsplit, hcp]
        omega
      · have hrec := (ih (idKey r :: ids) (fnKey r :: fns)).2
        rw [hsplit, hcp]
        omega

/-- **C10**.  A record lacking an id (or filename) is keyed by the empty
string in duplicate detection, so among the records lacking the field all
but at most one produce a `Duplicate report ID: ` (resp.
`Duplicate filename: `) error for the empty value — even though no two of
them share an actual id or filename. -/
theorem validate_duplicates_missing_C10 (rs : List Report) :
    (∀ r : Report, r.id = none → idKey r = "") ∧
    (∀ r : Report, r.filename = none → fnKey r = "") ∧
    (rs.countP (fun r => r.id.isNone) ≤
      (validate_duplicates rs).count (dupIdMsg "") + 1) ∧
    (rs.countP (fun r => r.filename.isNone) ≤
      (validate_duplicates rs).count (dupFnMsg "") + 1) := by
  refine ⟨?_, ?_, ?_, ?_⟩
  · intro r h
    simp [idKey, h]
  · intro r h
    simp [fnKey, h]
  · exact (validateDupGo_count_id rs [] []).2
  · exact (validateDupGo_count_fn rs [] []).2

/-- **C10 witness**: two id-less, filename-less records produce a duplicate
error for the empty id and the empty filename. -/
theorem validate_duplicates_missing_C10_witness :
    idKey ({ } : Report) = "" ∧ fnKey ({ } : Report) = "" ∧
    (2 : Nat) ≤ (validate_duplicates [{ }, { }]).count (dupIdMsg "") + 1 ∧
    (2 : Nat) ≤ (validate_duplicates [{ }, { }]).count (dupFnMsg "") + 1 := by
  have h := validate_duplicates_missing_C10 [{ }, { }]
  refine ⟨h.1 { } rfl, h.2.1 { } rfl, ?_, ?_⟩
  · have := h.2.2.1
    simpa using this
  · have := h.2.2.2
    simpa using this

end Catalogue

namespace Catalogue

/-- **C6 counterexample**.  The prefix rules are case-sensitive: the
filename `"kya-2026-01-19.html"` starts with `"KYA-"` case-insensitively
(its lowercasing starts with `"kya-"`), yet `determine_category` falls all
the way through to the default `"slm"` instead of returning `"kya"` as the
claimed case-insensitive prefix matching would. -/
theorem determine_category_C6_counterexample :
    determine_category "kya-2026-01-19.html" = "slm" ∧
    pyStartsWith (pyLower "kya-2026-01-19.html") (pyLower "KYA-") = true ∧
    ("slm" : String) ≠ "kya" := by
  refine ⟨by decide, by decide, by decide⟩

/-- **C6** (amended).  `determine_category` is the first-match-wins
evaluation of the ordered rule list `categoryRules` with default `"slm"`:
the same rule order as claimed, but with case-sensitive `startswith` prefix
tests (only the `"solana"`, `"slm"`, `"vertical"` rules also match anywhere
in the lowercased filename via their substring alternates, and the
substring tests `"funding"`, `"investor"`, `"benchmark"`, `"cross-chain"`
are case-insensitive), and with the `CEO-RESEARCH` rule returning
`"solana"` outright — a filename that also contains `"cross-chain"` is
caught by the earlier substring rule. -/
theorem determine_category_C6 (f : String) :
    determine_category f = evalRules "slm" categoryRules f := by
  rw [determine_category, categoryRules]
  simp only [evalRules]
  split_ifs <;> simp_all

end Catalogue

namespace Catalogue

/-- **C7 counterexample**.  With four records sorted by date descending and
the three pre-flagged ones not including the most recent record, the first
flagged record (which lacks a `featured_label`) receives `"Key Document"`,
and no record at all receives `"NEW - Latest Research"` — against the
claimed §4.4 positional rule, under which the first flagged record would be
labeled `"NEW - Latest Research"`. -/
theorem create_reports_json_C7_counterexample :
    ((create_reports_json
        [{ filename := "a.html", id := "a", date := "2026-01-19" },
         { filename := "b.html", id := "b", date := "2026-01-18", featured := true },
         { filename := "c.html", id := "c", date := "2026-01-17", featured := true },
         { filename := "d.html", id := "d", date := "2026-01-16", featured := true }]).getD
      1 default).featured_label = some "Key Document" ∧
    ∀ r ∈ create_reports_json
        [{ filename := "a.html", id := "a", date := "2026-01-19" },
         { filename := "b.html", id := "b", date := "2026-01-18", featured := true },
         { filename := "c.html", id := "c", date := "2026-01-17", featured := true },
         { filename := "d.html", id := "d", date := "2026-01-16", featured := true }],
      r.featured_label ≠ some "NEW - Latest Research" := by
  refine ⟨by decide, by decide⟩

end Catalogue

namespace Catalogue

theorem migLabelStep_featured (i : Nat) (r : MReport) :
    (migLabelStep i r).featured = r.featured := by
  rw [migLabelStep]
  split <;> rfl

/-- **C7** (amended).  `create_reports_json` sorts by date descending and,
when fewer than 3 records are flagged, force-flags the first 3 of the
sorted list; it then sets `featured_label` on every flagged record
positionally by the record's index in the whole sorted list — index 0 gets
`"NEW - Latest Research"`, every other flagged index gets
`"Key Document"` — overwriting any existing label, and leaving non-flagged
records exactly as they stand in the sorted list (so when 3 or more
records are pre-flagged but the most recent is not, no record receives
`"NEW - Latest Research"`). -/
theorem create_reports_json_C7 (rs : List MReport) :
    (create_reports_json rs).length = rs.length ∧
    (∀ i, i < (create_reports_json rs).length →
      ((create_reports_json rs).getD i default).featured = true →
      ((create_reports_json rs).getD i default).featured_label =
        some (if i = 0 then "NEW - Latest Research" else "Key Document")) ∧
    (∀ i, i < (create_reports_json rs).length →
      ((create_reports_json rs).getD i default).featured = false →
      (create_reports_json rs).getD i default =
        (sortDescByStr (fun r => r.date) rs).getD i default) ∧
    ((sortDescByStr (fun r => r.date) rs).countP (fun r => r.featured) < 3 →
      ∀ i, i < 3 → i < (create_reports_json rs).length →
        ((create_reports_json rs).getD i default).featured = true) ∧
    (3 ≤ (sortDescByStr (fun r => r.date) rs).countP (fun r => r.featured) →
      ∀ i, i < (create_reports_json rs).length →
        ((create_reports_json rs).getD i default).featured =
          ((sortDescByStr (fun r => r.date) rs).getD i default).featured) := by
  have hsl : (sortDescByStr (fun r : MReport => r.date) rs).length = rs.length :=
    length_sortByLe _ _
  set sorted := sortDescByStr (fun r : MReport => r.date) rs with hsorted
  set cnt := sorted.countP (fun r => r.featured) with hcnt
  set flagged := (if cnt < 3 then mapWithIdx migFlagStep 0 sorted else sorted) with hflagged
  have hout : create_reports_json rs = mapWithIdx migLabelStep 0 flagged := rfl
  have hfl : flagged.length = rs.length := by
    rw [hflagged]
    by_cases hc : cnt < 3
    · rw [if_pos hc, length_mapWithIdx, hsl]
    · rw [if_neg hc, hsl]
  have hol : (create_reports_json rs).length = rs.length := by
    rw [hout, length_mapWithIdx, hfl]
  have hgetout : ∀ i, i < rs.length →
      (create_reports_json rs).getD i default =
        migLabelStep i (flagged.getD i default) := by
    intro i hi
    rw [hout, getD_mapWithIdx _ _ flagged 0 i (by omega : i < flagged.length)]
    rw [Nat.zero_add]
  have hgetflag : cnt < 3 → ∀ i, i < rs.length →
      flagged.getD i default = migFlagStep i (sorted.getD i default) := by
    intro hc i hi
    rw [hflagged, if_pos hc, getD_mapWithIdx _ _ sorted 0 i (by omega : i < sorted.length)]
    rw [Nat.zero_add]
  refine ⟨hol, ?_, ?_, ?_, ?_⟩
  · intro i hi hfeat
    rw [hol] at hi
    rw [hgetout i hi] at hfeat ⊢
    cases hf : (flagged.getD i default).featured
    · rw [migLabelStep_featured] at hfeat
      rw [hf] at hfeat
      exact absurd hfeat (by simp)
    · rw [migLabelStep, if_pos hf]
      by_cases hi0 : i = 0 <;> simp [hi0]
  · intro i hi hfeat
    rw [hol] at hi
    rw [hgetout i hi] at hfeat ⊢
    cases hf : (flagged.getD i default).featured
    · have hid : migLabelStep i (flagged.getD i default) = flagged.getD i default := by
        rw [migLabelStep, if_neg (by rw [hf]; exact Bool.false_ne_true)]
      rw [hid]
      by_cases hc : cnt < 3
      · rw [hgetflag hc i hi] at hf ⊢
        rw [migFlagStep] at hf ⊢
        by_cases hcond : (i < 3 ∧ (!(sorted.getD i default).featured) = true)
        · rw [if_pos hcond] at hf
          exact absurd hf (by simp)
        · rw [if_neg hcond]
      · rw [hflagged, if_neg hc]
    · rw [migLabelStep_featured, hf] at hfeat
      exact absurd hfeat (by simp)
  · intro hc3 i hi3 hi
    rw [hol] at hi
    rw [hgetout i hi, migLabelStep_featured, hgetflag hc3 i hi, migFlagStep]
    by_cases hcond : (i < 3 ∧ (!(sorted.getD i default).featured) = true)
    · rw [if_pos hcond]
    · rw [if_neg hcond]
      push_neg at hcond
      have := hcond hi3
      simpa using this
  · intro hc3 i hi
    rw [hol] at hi
    rw [hgetout i hi, migLabelStep_featured, hflagged, if_neg (by omega)]

/-- **C7 witness**: on a single-record input whose record is already
flagged, the labeling conjunct of `create_reports_json_C7` gives the
record at index 0 the label `"NEW - Latest Research"`. -/
theorem create_reports_json_C7_witness :
    ((create_reports_json
        [{ filename := "a.html", id := "a", date := "2026-01-19", featured := true }]).getD
      0 default).featured_label = some "NEW - Latest Research" := by
  have h := (create_reports_json_C7
    [{ filename := "a.html", id := "a", date := "2026-01-19", featured := true }]).2.1
    0 (by decide) (by decide)
  simpa using h

end Catalogue

namespace Catalogue

theorem mem_mapWithIdx (f : Nat → α → β) :
    ∀ (l : List α) (n : Nat) (q : β), q ∈ mapWithIdx f n l →
      ∃ i a, a ∈ l ∧ q = f i a := by
  intro l
  induction l with
  | nil => intro n q h; simp [mapWithIdx] at h
  | cons a t ih =>
    intro n q h
    rcases List.mem_cons.mp h with rfl | h
    · exact ⟨n, a, List.mem_cons_self _ _, rfl⟩
    · rcases ih (n + 1) q h with ⟨i, b, hb, hq⟩
      exact ⟨i, b, List.mem_cons_of_mem _ hb, hq⟩

theorem mapWithIdx_pair_fst (g : Nat → Report → Report) :
    ∀ (l : List (Nat × Report)) (n : Nat),
      (mapWithIdx (fun i p => (p.1, g i p.2)) n l).map (fun q => q.1) =
        l.map (fun p => p.1) := by
  intro l
  induction l with
  | nil => intro n; rfl
  | cons p t ih => intro n; simp [mapWithIdx, ih]

theorem selPairs_mem (rs : List Report) :
    ∀ p ∈ selPairs rs, p.1 < rs.length ∧ p.2 = rs.getD p.1 default := by
  intro p hp
  have hidx : ∀ q ∈ mapWithIdx (fun i (r : Report) => (i, r)) 0 rs,
      q.1 < rs.length ∧ q.2 = rs.getD q.1 default := by
    intro q hq
    rcases mem_enumIdx rs 0 q hq with ⟨_, h2, h3⟩
    rw [Nat.sub_zero] at h2 h3
    exact ⟨h2, h3⟩
  rw [selPairs] at hp
  have hp2 := List.mem_of_mem_take hp
  by_cases hc : (List.filter (fun p : Nat × Report => p.2.featured)
      (mapWithIdx (fun i r => (i, r)) 0 rs)).length < 3
  · rw [if_pos hc] at hp2
    rcases List.mem_append.mp hp2 with h | h
    · exact hidx p (List.mem_filter.mp h).1
    · have h2 := List.mem_of_mem_take h
      have h3 : p ∈ List.filter (fun p : Nat × Report => !p.2.featured)
          (mapWithIdx (fun i r => (i, r)) 0 rs) := by
        have := (mem_sortByLe
          (fun a b : Nat × Report => pyStrLe (dateKey b.2) (dateKey a.2)) _ p).mp h2
        exact this
      exact hidx p (List.mem_filter.mp h3).1
  · rw [if_neg hc] at hp2
    exact hidx p (List.mem_filter.mp hp2).1

theorem selIndices_length (rs : List Report) : (selIndices rs).length ≤ 3 := by
  rw [selIndices, List.length_map]
  simp only [selPairs]
  rw [List.length_take]
  omega

theorem applyFeaturedMut_fields (i : Nat) (r : Report) :
    (applyFeaturedMut i r).featured = true ∧
    (applyFeaturedMut i r).id = r.id ∧
    (applyFeaturedMut i r).filename = r.filename ∧
    (applyFeaturedMut i r).title = r.title ∧
    (applyFeaturedMut i r).description = r.description ∧
    (applyFeaturedMut i r).date = r.date ∧
    (applyFeaturedMut i r).category = r.category ∧
    (applyFeaturedMut i r).version = r.version ∧
    (applyFeaturedMut i r).badges = r.badges ∧
    (applyFeaturedMut i r).badge_colors = r.badge_colors ∧
    (truthyS r.featured_label = true →
      (applyFeaturedMut i r).featured_label = r.featured_label) ∧
    (truthyS r.featured_label = false →
      (applyFeaturedMut i r).featured_label = some "NEW - Latest Research" ∨
      (applyFeaturedMut i r).featured_label = some "Key Document") := by
  by_cases ht : truthyS r.featured_label = true
  · simp [applyFeaturedMut, ht]
  · have ht2 : truthyS r.featured_label = false := by
      cases h : truthyS r.featured_label
      · rfl
      · exact absurd h ht
    by_cases hi : (i == 0) = true
    · simp [applyFeaturedMut, ht2, featuredLabelAt, hi]
    · have hi2 : (i == 0) = false := by
        cases h : (i == 0)
        · rfl
        · exact absurd h hi
      simp [applyFeaturedMut, ht2, featuredLabelAt, hi2]

/-- **C8**.  `get_featured_reports` mutates the store only through the at
most 3 selected records: every non-selected position is returned exactly as
it was, and a selected position keeps every field except that `featured`
becomes `true` and, when the record's `featured_label` was falsy (missing
or empty), `featured_label` becomes one of the two positional labels; a
truthy `featured_label` is left unchanged. -/
theorem get_featured_reports_C8 (rs : List Report) :
    (selIndices rs).length ≤ 3 ∧
    (get_featured_reports rs).2.length = rs.length ∧
    (∀ j, j < rs.length → j ∉ selIndices rs →
      (get_featured_reports rs).2.getD j default = rs.getD j default) ∧
    (∀ j, j < rs.length → j ∈ selIndices rs →
      ((get_featured_reports rs).2.getD j default).featured = true ∧
      ((get_featured_reports rs).2.getD j default).id = (rs.getD j default).id ∧
      ((get_featured_reports rs).2.getD j default).filename = (rs.getD j default).filename ∧
      ((get_featured_reports rs).2.getD j default).title = (rs.getD j default).title ∧
      ((get_featured_reports rs).2.getD j default).description =
        (rs.getD j default).description ∧
      ((get_featured_reports rs).2.getD j default).date = (rs.getD j default).date ∧
      ((get_featured_reports rs).2.getD j default).category = (rs.getD j default).category ∧
      ((get_featured_reports rs).2.getD j default).version = (rs.getD j default).version ∧
      ((get_featured_reports rs).2.getD j default).badges = (rs.getD j default).badges ∧
      ((get_featured_reports rs).2.getD j default).badge_colors =
        (rs.getD j default).badge_colors ∧
      (truthyS (rs.getD j default).featured_label = true →
        ((get_featured_reports rs).2.getD j default).featured_label =
          (rs.getD j default).featured_label) ∧
      (truthyS (rs.getD j default).featured_label = false →
        ((get_featured_reports rs).2.getD j default).featured_label =
          some "NEW - Latest Research" ∨
        ((get_featured_reports rs).2.getD j default).featured_label =
          some "Key Document")) := by
  have hsel : (get_featured_reports rs).2 =
      mapWithIdx (fun j r =>
        match (mapWithIdx (fun i p => (p.1, applyFeaturedMut i p.2)) 0
            (selPairs rs)).find? (fun p => p.1 == j) with
        | some p => p.2
        | none => r) 0 rs := rfl
  have hfst : (mapWithIdx (fun i p => (p.1, applyFeaturedMut i p.2)) 0
      (selPairs rs)).map (fun q => q.1) = selIndices rs := by
    rw [selIndices]
    exact mapWithIdx_pair_fst applyFeaturedMut (selPairs rs) 0
  have hgd : ∀ j, j < rs.length →
      (get_featured_reports rs).2.getD j default =
        (match (mapWithIdx (fun i p => (p.1, applyFeaturedMut i p.2)) 0
            (selPairs rs)).find? (fun p => p.1 == j) with
        | some p => p.2
        | none => rs.getD j default) := by
    intro j hj
    rw [hsel, getD_mapWithIdx _ _ rs 0 j hj]
    rw [Nat.zero_add]
  refine ⟨selIndices_length rs, ?_, ?_, ?_⟩
  · rw [hsel, length_mapWithIdx]
  · intro j hj hnin
    rw [hgd j hj]
    have hnone : (mapWithIdx (fun i p => (p.1, applyFeaturedMut i p.2)) 0
        (selPairs rs)).find? (fun p => p.1 == j) = none := by
      rw [List.find?_eq_none]
      intro x hx hbeq
      have hx1 : x.1 = j := by simpa using hbeq
      have : x.1 ∈ selIndices rs := by
        rw [← hfst]
        exact List.mem_map.mpr ⟨x, hx, rfl⟩
      rw [hx1] at this
      exact hnin this
    rw [hnone]
  · intro j hj hin
    rw [hgd j hj]
    cases hfind : (mapWithIdx (fun i p => (p.1, applyFeaturedMut i p.2)) 0
        (selPairs rs)).find? (fun p => p.1 == j) with
    | none =>
      rw [List.find?_eq_none] at hfind
      rw [← hfst] at hin
      rcases List.mem_map.mp hin with ⟨x, hx, hx1⟩
      exact absurd (by simpa using hx1) (by simpa using hfind x hx)
    | some p =>
      have hp1 : p.1 = j := by
        have := List.find?_some hfind
        simpa using this
      have hpmem := List.mem_of_find?_eq_some hfind
      rcases mem_mapWithIdx _ _ _ _ hpmem with ⟨i, a, ha, hq⟩
      rcases selPairs_mem rs a ha with ⟨ha1, ha2⟩
      have ha1j : a.1 = j := by
        rw [hq] at hp1
        simpa using hp1
      have hpa : p.2 = applyFeaturedMut i (rs.getD j default) := by
        rw [hq]
        show applyFeaturedMut i a.2 = _
        rw [ha2, ha1j]
      dsimp only
      rw [hpa]
      exact applyFeaturedMut_fields i (rs.getD j default)

/-- **C8 witness**: `get_featured_reports_C8` instantiated at a 4-record
store with 3 pre-flagged records: position 0 is not selected and is
returned unchanged, and position 1 is selected and has `featured` set. -/
theorem get_featured_reports_C8_witness :
    ((get_featured_reports
        [{ id := some "a" },
         { id := some "b", featured := true },
         { id := some "c", featured := true },
         { id := some "d", featured := true }]).2.getD 0 default =
      { id := some "a" }) ∧
    (((get_featured_reports
        [{ id := some "a" },
         { id := some "b", featured := true },
         { id := some "c", featured := true },
         { id := some "d", featured := true }]).2.getD 1 default).featured = true) := by
  constructor
  · exact (get_featured_reports_C8
      [{ id := some "a" }, { id := some "b", featured := true },
       { id := some "c", featured := true }, { id := some "d", featured := true }]).2.2.1
      0 (by decide) (by decide)
  · exact ((get_featured_reports_C8
      [{ id := some "a" }, { id := some "b", featured := true },
       { id := some "c", featured := true }, { id := some "d", featured := true }]).2.2.2
      1 (by decide) (by decide)).1

end Catalogue

namespace Catalogue

theorem parseMonth_sound :
    ∀ (cs : List Char) (m : Nat) (rest : List Char),
      parseMonth cs = some (m, rest) → 1 ≤ m ∧ m ≤ 12 := by
  intro cs m rest h
  rcases cs with _ | ⟨c1, _ | ⟨c2, rest0⟩⟩
  · simp [parseMonth] at h
  · simp only [parseMonth] at h
    split_ifs at h with h1
    · rw [Option.some.injEq, Prod.mk.injEq] at h
      obtain ⟨hm, -⟩ := h
      simp only [digitVal] at hm
      omega
  · simp only [parseMonth] at h
    split_ifs at h with h1 h2 h3
    · rw [Option.some.injEq, Prod.mk.injEq] at h
      obtain ⟨hm, -⟩ := h
      obtain ⟨-, hb1, hb2⟩ := h1
      simp only [digitVal] at hm
      omega
    · rw [Option.some.injEq, Prod.mk.injEq] at h
      obtain ⟨hm, -⟩ := h
      obtain ⟨-, hb1, hb2⟩ := h2
      simp only [digitVal] at hm
      omega
    · rw [Option.some.injEq, Prod.mk.injEq] at h
      obtain ⟨hm, -⟩ := h
      obtain ⟨hb1, hb2⟩ := h3
      simp only [digitVal] at hm
      omega

theorem parseDay_sound :
    ∀ (cs : List Char) (d : Nat) (rest : List Char),
      parseDay cs = some (d, rest) → 1 ≤ d ∧ d ≤ 31 := by
  intro cs d rest h
  rcases cs with _ | ⟨c1, _ | ⟨c2, rest0⟩⟩
  · simp [parseDay] at h
  · simp only [parseDay] at h
    split_ifs at h with h1
    · rw [Option.some.injEq, Prod.mk.injEq] at h
      obtain ⟨hd, -⟩ := h
      simp only [digitVal] at hd
      omega
  · simp only [parseDay] at h
    split_ifs at h with h1 h2 h3 h4
    · rw [Option.some.injEq, Prod.mk.injEq] at h
      obtain ⟨hd, -⟩ := h
      obtain ⟨-, hb1, hb2⟩ := h1
      simp only [digitVal] at hd
      omega
    · rw [Option.some.injEq, Prod.mk.injEq] at h
      obtain ⟨hd, -⟩ := h
      obtain ⟨⟨hb1, hb2⟩, hb3, hb4⟩ := h2
      simp only [digitVal] at hd
      omega
    · rw [Option.some.injEq, Prod.mk.injEq] at h
      obtain ⟨hd, -⟩ := h
      obtain ⟨-, hb1, hb2⟩ := h3
      simp only [digitVal] at hd
      omega
    · rw [Option.some.injEq, Prod.mk.injEq] at h
      obtain ⟨hd, -⟩ := h
      obtain ⟨hb1, hb2⟩ := h4
      simp only [digitVal] at hd
      omega

theorem parseYMDL_sound :
    ∀ (cs : List Char) (y m d : Nat), parseYMDL cs = some (y, m, d) →
      1 ≤ y ∧ 1 ≤ m ∧ m ≤ 12 ∧ 1 ≤ d ∧ d ≤ daysInMonth y m := by
  intro cs y m d h
  rcases cs with _ | ⟨y1, _ | ⟨y2, _ | ⟨y3, _ | ⟨y4, _ | ⟨h1, rest⟩⟩⟩⟩⟩
  · simp [parseYMDL] at h
  · simp [parseYMDL] at h
  · simp [parseYMDL] at h
  · simp [parseYMDL] at h
  · simp [parseYMDL] at h
  · simp only [parseYMDL] at h
    split_ifs at h with hguard
    · rcases hpm : parseMonth rest with _ | ⟨m2, rest2⟩
      · rw [hpm] at h
        simp at h
      · rw [hpm] at h
        rcases rest2 with _ | ⟨h2, rest3⟩
        · simp at h
        · simp only at h
          split_ifs at h with hh2
          · rcases hpd : parseDay rest3 with _ | ⟨d2, rest4⟩
            · rw [hpd] at h
              simp at h
            · rw [hpd] at h
              simp only at h
              split_ifs at h with hcond
              · rw [Option.some.injEq] at h
                obtain ⟨-, hy, hd⟩ := hcond
                have hm := parseMonth_sound rest m2 (h2 :: rest3) hpm
                have hday := parseDay_sound rest3 d2 rest4 hpd
                rw [Prod.mk.injEq, Prod.mk.injEq] at h
                obtain ⟨hyv, hmv, hdv⟩ := h
                subst hyv
                subst hmv
                subst hdv
                exact ⟨hy, hm.1, hm.2, hday.1, hd⟩

/-- **C9**.  `format_date_label` is total (a Lean function): every input
yields a result without raising; a string accepted by the
`strptime("%Y-%m-%d")` model (with calendar-valid month/day and year at
least `MINYEAR = 1`) is converted to the long-form label built from the
month name, the zero-padded day and the year, and any string the parse
rejects is returned unchanged. -/
theorem format_date_label_C9 :
    (∀ s : String,
      (parseYMD s = none ∧ format_date_label s = s) ∨
      (∃ y m d : Nat, parseYMD s = some (y, m, d) ∧ 1 ≤ y ∧ 1 ≤ m ∧ m ≤ 12 ∧
        1 ≤ d ∧ d ≤ daysInMonth y m ∧
        format_date_label s = monthName m ++ " " ++ pad2 d ++ ", " ++ toString y)) ∧
    format_date_label "2026-01-19" = "January 19, 2026" ∧
    format_date_label "2026/01/19" = "2026/01/19" ∧
    format_date_label "Unknown" = "Unknown" ∧
    format_date_label "" = "" := by
  refine ⟨?_, by decide, by decide, by decide, by decide⟩
  intro s
  cases hp : parseYMD s with
  | none =>
    left
    exact ⟨rfl, by simp [format_date_label, hp]⟩
  | some t =>
    rcases t with ⟨y, m, d⟩
    right
    have hb := parseYMDL_sound s.data y m d hp
    exact ⟨y, m, d, rfl, hb.1, hb.2.1, hb.2.2.1, hb.2.2.2.1, hb.2.2.2.2,
      by simp [format_date_label, hp]⟩

end Catalogue
